import Mathlib

/-!
Verification of the transactional key-value core and the transfer engine of a
small Go banking service.

The storage layer (`storage/in_memory.go`) is a map `data : map[Key]Value`
with `Key = uint64`, `Value = string`, together with a buffered transaction
`InMemoryStorageTransaction` holding an overlay `transactions map[Key]*Value`
in which a `nil` pointer is a tombstone.  The HTTP layer (`api/handlers.go`)
validates transfer requests, reads and parses the two balances with
`big.ParseFloat`, and applies the two legs through one transaction.

Modelling conventions:
- `Key = uint64` is modelled as `Nat`; keys are only compared for equality,
  never computed with, so no overflow arises.
- A Go map is modelled as a total function `Key → Option Value` when only
  point lookups matter (the backing store), and as an association list with
  pairwise-distinct keys when iteration order matters (the transaction
  overlay, which `Commit` ranges over in unspecified order).
- Go's `(T, error)` returns are modelled with `Option`: `none` is the
  `ErrKeyNotFound` failure.
- Field `data` of the transaction model is the (shared) underlying store
  map; the Go transaction holds it through an embedded `*InMemoryStorage`.
-/

namespace BankKV

/-- Go: `type Key = uint64` (`storage/storage.go`).  Keys are only tested for
equality, so `Nat` is a faithful model. -/
abbrev Key := Nat

/-- Go: `type Value = string` (`storage/storage.go`). -/
abbrev Value := String

/-- The contents of `InMemoryStorage.data : map[Key]Value`, as a point
function; `none` means the key is absent. -/
abbrev Store := Key → Option Value

/-- The overlay `transactions map[Key]*Value` of an open transaction: an
association list from keys to `some value` (a buffered write) or `none`
(a buffered tombstone, Go's `nil` pointer).  A Go map has pairwise distinct
keys; the operations below preserve that invariant. -/
abbrev Overlay := List (Key × Option Value)

/-- Read a Go map modelled as an association list: `v, ok := m[k]`.
Returns `none` when the key is absent (`ok = false`). -/
def mapGet : Overlay → Key → Option (Option Value)
  | [], _ => none
  | (k', v') :: rest, k => if k' = k then some v' else mapGet rest k

/-- Write a Go map modelled as an association list: `m[k] = v` replaces an
existing entry in place or appends a fresh one. -/
def mapSet : Overlay → Key → Option Value → Overlay
  | [], k, v => [(k, v)]
  | (k', v') :: rest, k, v =>
      if k' = k then (k, v) :: rest else (k', v') :: mapSet rest k v

/-- Go: `func (store *InMemoryStorage) Get(key Key) (Value, error)` —
a map lookup; a missing key is `ErrKeyNotFound` (`none`). -/
def InMemoryStorage.Get (store : Store) (key : Key) : Option Value :=
  store key

/-- The state of an `InMemoryStorageTransaction`: the underlying store map
(reached through the embedded `*InMemoryStorage`) and the buffered overlay.
The `sync.RWMutex` field only serialises intra-process access and has no
effect on the sequential semantics modelled here. -/
structure InMemoryStorageTransaction where
  data : Store
  transactions : Overlay

/-- Go: `func (store *InMemoryStorage) Begin() StorageTransaction` — a fresh
transaction over `store` with an empty overlay. -/
def Begin (store : Store) : InMemoryStorageTransaction :=
  { data := store, transactions := [] }

namespace InMemoryStorageTransaction

/-- Go: `func (tx *InMemoryStorageTransaction) Set(key Key, value Value) error`
— buffers the write (`tx.transactions[key] = &value`) and always returns
`nil`; the store map is not touched. -/
def Set (tx : InMemoryStorageTransaction) (key : Key) (value : Value) :
    InMemoryStorageTransaction :=
  { tx with transactions := mapSet tx.transactions key (some value) }

/-- Go: `func (tx *InMemoryStorageTransaction) Get(key Key) (Value, error)`.
The source reads the overlay and falls back to the store when the key is
absent from the overlay *or the buffered pointer is nil*
(`if !exists || value == nil`); the fallback returns `ErrKeyNotFound` when
the store lacks the key. -/
def Get (tx : InMemoryStorageTransaction) (key : Key) : Option Value :=
  match mapGet tx.transactions key with
  | none => tx.data key
  | some none => tx.data key
  | some (some v) => some v

/-- Go: `func (tx *InMemoryStorageTransaction) Delete(key Key) error`.
The existence check `_, exists := tx.data[key]` consults the *store*, not
the overlay; on success a tombstone (`nil`) is buffered and the store map is
untouched.  Returns `none` for the `ErrKeyNotFound` failure. -/
def Delete (tx : InMemoryStorageTransaction) (key : Key) :
    Option InMemoryStorageTransaction :=
  match tx.data key with
  | none => none
  | some _ => some { tx with transactions := mapSet tx.transactions key none }

/-- One iteration of the `Commit` loop: a nil entry deletes the key from the
store map, a non-nil entry overwrites it. -/
def commitEntry (data : Store) (e : Key × Option Value) : Store :=
  match e.2 with
  | none => fun k => if k = e.1 then none else data k
  | some v => fun k => if k = e.1 then some v else data k

/-- Go: `func (tx *InMemoryStorageTransaction) Commit() error` — ranges over
the overlay map (in unspecified order; the model's list fixes one order and
the theorems quantify over its permutations) applying each entry to the
store map.  Always returns `nil`; the result is the new store contents. -/
def Commit (tx : InMemoryStorageTransaction) : Store :=
  tx.transactions.foldl commitEntry tx.data

/-- Go: `func (tx *InMemoryStorageTransaction) Rollback() error` — clears the
overlay (`clear(tx.transactions)`) and never touches the store map. -/
def Rollback (tx : InMemoryStorageTransaction) : InMemoryStorageTransaction :=
  { tx with transactions := [] }

end InMemoryStorageTransaction

/-- A `Set` or `Delete` call made on an open transaction. -/
inductive TxOp
  | set (k : Key) (v : Value)
  | del (k : Key)

/-- Run one buffered operation; a failed `Delete` (key absent from the
store) leaves the transaction exactly as it was, which is what the Go
caller observes since `Delete` returned an error without mutating. -/
def applyOp (tx : InMemoryStorageTransaction) : TxOp → InMemoryStorageTransaction
  | .set k v => tx.Set k v
  | .del k =>
      match tx.Delete k with
      | none => tx
      | some tx' => tx'

/-- Run a finite sequence of `Set`/`Delete` calls on a transaction. -/
def applyOps (tx : InMemoryStorageTransaction) (ops : List TxOp) :
    InMemoryStorageTransaction :=
  ops.foldl applyOp tx

/-! Helper lemmas about the overlay and the commit loop. -/

theorem commitEntry_apply (data : Store) (e : Key × Option Value) (k : Key) :
    InMemoryStorageTransaction.commitEntry data e k =
      if k = e.1 then e.2 else data k := by
  obtain ⟨k₀, v₀⟩ := e
  cases v₀ <;> rfl

theorem commit_foldl_not_mem (l : Overlay) (data : Store) (k : Key)
    (h : k ∉ l.map Prod.fst) :
    l.foldl InMemoryStorageTransaction.commitEntry data k = data k := by
  induction l generalizing data with
  | nil => rfl
  | cons e t ih =>
      simp only [List.map_cons, List.mem_cons, not_or] at h
      rw [List.foldl_cons, ih _ h.2, commitEntry_apply, if_neg h.1]

theorem commit_foldl_mem (l : Overlay) (data : Store) (k : Key)
    (ov : Option Value) (hnd : (l.map Prod.fst).Nodup) (hmem : (k, ov) ∈ l) :
    l.foldl InMemoryStorageTransaction.commitEntry data k = ov := by
  induction l generalizing data with
  | nil => cases hmem
  | cons e t ih =>
      simp only [List.map_cons, List.nodup_cons] at hnd
      rcases List.mem_cons.mp hmem with heq | hmem'
      · subst heq
        rw [List.foldl_cons]
        have hk : k ∉ t.map Prod.fst := by simpa using hnd.1
        rw [commit_foldl_not_mem t _ k hk, commitEntry_apply, if_pos rfl]
      · rw [List.foldl_cons]
        exact ih _ hnd.2 hmem'

theorem applyOp_data (tx : InMemoryStorageTransaction) (op : TxOp) :
    (applyOp tx op).data = tx.data := by
  cases op with
  | set k v => rfl
  | del k =>
      simp only [applyOp, InMemoryStorageTransaction.Delete]
      cases tx.data k <;> rfl

theorem applyOps_data (tx : InMemoryStorageTransaction) (ops : List TxOp) :
    (applyOps tx ops).data = tx.data := by
  induction ops generalizing tx with
  | nil => rfl
  | cons op t ih => rw [applyOps, List.foldl_cons, ← applyOps, ih, applyOp_data]

/-! Theorems for the claims about the transaction layer. -/

/-- C6: buffered `Set`/`Delete` calls never change the underlying store;
after any such sequence a `Rollback` still leaves the store at its value
from `Begin`; and `Rollback` applied to a committed transaction (whose
shared store map now holds the commit result and whose overlay `Commit`
did not clear) is a no-op on the store. -/
theorem tx_writes_buffer_only (tx : InMemoryStorageTransaction)
    (ops : List TxOp) (s : Store) (tx₀ : InMemoryStorageTransaction) :
    (applyOps tx ops).data = tx.data ∧
    ((applyOps (Begin s) ops).Rollback).data = s ∧
    (InMemoryStorageTransaction.Rollback
        ⟨tx₀.Commit, tx₀.transactions⟩).data = tx₀.Commit := by
  refine ⟨applyOps_data tx ops, ?_, rfl⟩
  show (applyOps (Begin s) ops).data = s
  rw [applyOps_data]
  rfl

/-- C7: `Commit` applies every overlay entry to the store — a buffered value
ends up stored at its key and a buffered tombstone removes its key — and the
result does not depend on the order in which the loop visits the entries
(any permutation `l'` of the overlay commits to the same value). -/
theorem commit_applies_every_overlay_entry (data : Store) (l l' : Overlay)
    (hnd : (l.map Prod.fst).Nodup) (hp : l'.Perm l) (k : Key)
    (ov : Option Value) (hmem : (k, ov) ∈ l) :
    InMemoryStorageTransaction.Commit ⟨data, l'⟩ k = ov := by
  have hnd' : (l'.map Prod.fst).Nodup := ((hp.map Prod.fst).nodup_iff).mpr hnd
  have hmem' : (k, ov) ∈ l' := hp.mem_iff.mpr hmem
  exact commit_foldl_mem l' data k ov hnd' hmem'

/-- Witness for C7 at a concrete overlay and a permutation of it: the
tombstone buffered for key 2 deletes it from the store whichever order the
commit loop uses. -/
theorem commit_applies_every_overlay_entry_w :
    InMemoryStorageTransaction.Commit
        ⟨fun _ => some "z", [(2, none), (1, some "a")]⟩ 2 = none := by
  have hp : [((2 : Key), (none : Option Value)), (1, some "a")].Perm
      [(1, some "a"), (2, none)] := List.Perm.swap _ _ _
  exact commit_applies_every_overlay_entry (fun _ => some "z")
    [(1, some "a"), (2, none)] [(2, none), (1, some "a")]
    (by decide) hp 2 none (by simp)

/-- C8: `Delete` fails with NotFound exactly when the key is absent from the
underlying store, whatever the overlay holds for that key; on success it
only buffers a tombstone, leaving the store map unchanged. -/
theorem delete_checks_store_not_overlay (data : Store) (l : Overlay)
    (k : Key) :
    (data k = none → InMemoryStorageTransaction.Delete ⟨data, l⟩ k = none) ∧
    (∀ v, data k = some v →
      InMemoryStorageTransaction.Delete ⟨data, l⟩ k =
        some ⟨data, mapSet l k none⟩) := by
  constructor
  · intro h
    simp [InMemoryStorageTransaction.Delete, h]
  · intro v h
    simp [InMemoryStorageTransaction.Delete, h]

/-- Witness for C8: with key 1 present in the store and a buffered write for
the same key in the overlay, `Delete` succeeds and replaces the buffered
write by a tombstone, keeping the store intact. -/
theorem delete_checks_store_not_overlay_w :
    InMemoryStorageTransaction.Delete
        ⟨fun k => if k = 1 then some "x" else none, [(1, some "y")]⟩ 1 =
      some ⟨fun k => if k = 1 then some "x" else none, [(1, none)]⟩ := by
  have h := (delete_checks_store_not_overlay
    (fun k => if k = 1 then some "x" else none) [(1, some "y")] 1).2 "x" rfl
  simpa [mapSet] using h

/-- C10: committing a transaction leaves every key outside the overlay at
exactly the value (or absence) it had in the store just before the commit. -/
theorem commit_preserves_untouched_keys (data : Store) (l : Overlay)
    (k : Key) (h : k ∉ l.map Prod.fst) :
    InMemoryStorageTransaction.Commit ⟨data, l⟩ k = data k :=
  commit_foldl_not_mem l data k h

/-- Witness for C10: key 2 is not in the overlay, so commit keeps its store
value `"z"`. -/
theorem commit_preserves_untouched_keys_w :
    InMemoryStorageTransaction.Commit
        ⟨fun _ => some "z", [(1, some "a")]⟩ 2 = some "z" :=
  commit_preserves_untouched_keys (fun _ => some "z") [(1, some "a")] 2
    (by decide)

/-- C5 (divergence witness): after a successful `Delete` of key 1 the
overlay holds a tombstone for it, yet `Get` returns the store's old value
`"100"` instead of NotFound, because the source's
`if !exists || value == nil` treats the nil tombstone pointer as "not
buffered" and falls through to the store. -/
theorem get_after_delete_returns_store_value :
    InMemoryStorageTransaction.Delete
        (Begin (fun k => if k = 1 then some "100" else none)) 1 =
      some ⟨fun k => if k = 1 then some "100" else none, [(1, none)]⟩ ∧
    InMemoryStorageTransaction.Get
        ⟨fun k => if k = 1 then some "100" else none, [(1, none)]⟩ 1 =
      some "100" :=
  ⟨rfl, rfl⟩

/-!
Decimal strings.  The handlers parse request amounts and stored balances
with `big.ParseFloat(s, 10, 64, big.ToNearestEven)` and re-serialise new
balances with `fmt.Sprintf("%.19f", f)`.  The model below idealises the
64-bit binary mantissa as exact rational arithmetic (the claims about
balances are stated up to the arithmetic's rounding tolerance) and models
the scanner for plain decimal notation, the only shape this API produces
and its documented clients send; exponent notation is not modelled.

Go facts reflected in `ParseResult`:
- when no valid numeric prefix can be scanned, `big.ParseFloat` returns a
  *nil* `*big.Float` together with the error (`scanError` below) — calling
  `Cmp` on that result panics;
- when a valid prefix is followed by trailing bytes, it returns the prefix's
  value and a non-nil error (`trailing` below);
- otherwise it returns the value with a nil error (`full` below).
-/

/-- Outcome of `big.ParseFloat(s, 10, 64, big.ToNearestEven)`, with the
mantissa rounding idealised away (values are exact rationals). -/
inductive ParseResult
  | scanError
  | trailing (q : ℚ)
  | full (q : ℚ)
deriving DecidableEq

/-- ASCII decimal digit test, as in Go's scanner. -/
def isDigitChar (c : Char) : Bool := 48 ≤ c.toNat && c.toNat ≤ 57

/-- Numeric value of an ASCII digit. -/
def digitVal (c : Char) : Nat := c.toNat - 48

/-- Split a character list into its leading run of decimal digits and the
rest. -/
def takeDigits : List Char → List Char × List Char
  | [] => ([], [])
  | c :: cs =>
      if isDigitChar c then
        let p := takeDigits cs
        (c :: p.1, p.2)
      else ([], c :: cs)

/-- Value of a digit run, most significant first. -/
def natOfDigits (l : List Char) : Nat :=
  l.foldl (fun a c => 10 * a + digitVal c) 0

/-- Go's `scanSign`: consume one optional `-` or `+`. -/
def scanSign : List Char → Bool × List Char
  | [] => (false, [])
  | c :: t =>
      if c = '-' then (true, t)
      else if c = '+' then (false, t)
      else (false, c :: t)

/-- Consume an optional fractional part `.` followed by digits. -/
def scanFrac : List Char → List Char × List Char
  | [] => ([], [])
  | c :: t => if c = '.' then takeDigits t else ([], c :: t)

/-- Scan a plain decimal number (sign, integer digits, optional fraction)
from the front of a character list.  Returns the value of the scanned
prefix, or `none` when not a single digit was found (Go's scan failure,
which leaves the `*big.Float` result nil), together with the unconsumed
rest. -/
def scanNumber (cs : List Char) : Option ℚ × List Char :=
  let s := scanSign cs
  let ip := takeDigits s.2
  let fp := scanFrac ip.2
  if ip.1 = [] ∧ fp.1 = [] then (none, cs)
  else
    let mag : ℚ := (natOfDigits ip.1 : ℚ) + (natOfDigits fp.1 : ℚ) / 10 ^ fp.1.length
    (some (if s.1 then -mag else mag), fp.2)

/-- Model of `big.ParseFloat(s, 10, 64, big.ToNearestEven)` followed by
Go's whole-string check in `Float.Parse`. -/
def parseGoFloat (s : String) : ParseResult :=
  match scanNumber s.toList with
  | (none, _) => .scanError
  | (some q, []) => .full q
  | (some q, _ :: _) => .trailing q

/-- ASCII character of a digit. -/
def digitChar (d : Nat) : Char := Char.ofNat (48 + d)

/-- Decimal digit characters of `n`, most significant first (empty for 0). -/
def natDigitChars (n : Nat) : List Char :=
  ((Nat.digits 10 n).map digitChar).reverse

/-- Decimal rendering of a natural number, as `Sprintf` prints it. -/
def natStr (n : Nat) : List Char :=
  if n = 0 then ['0'] else natDigitChars n

/-- Left-pad a digit run with zeros to 19 places, as `%.19f` pads the
fractional part. -/
def padLeft19 (l : List Char) : List Char :=
  List.replicate (19 - l.length) '0' ++ l

/-- The rational actually denoted by the 19-fractional-digit output of
`Sprintf("%.19f", q)`: `q` rounded to the nearest multiple of `10 ^ (-19)`.
Go's formatter breaks ties to even where this model breaks them upward; the
claims only use the half-ulp bound, which holds for either tie rule. -/
def round19 (q : ℚ) : ℚ := ((round (q * 10 ^ 19) : ℤ) : ℚ) / 10 ^ 19

/-- Model of `fmt.Sprintf("%.19f", q)` (the handlers' `SPRINTF_FORMAT`):
sign, integer digits, `.`, then exactly 19 fractional digits. -/
def fmtDec (q : ℚ) : String :=
  let n : ℤ := round (q * 10 ^ 19)
  let body : List Char :=
    natStr (n.natAbs / 10 ^ 19) ++ '.' :: padLeft19 (natDigitChars (n.natAbs % 10 ^ 19))
  ⟨if n < 0 then '-' :: body else body⟩

/-! Correctness of the digit printer against the scanner. -/

theorem digitVal_digitChar {d : Nat} (hd : d < 10) : digitVal (digitChar d) = d := by
  interval_cases d <;> rfl

theorem isDigitChar_digitChar {d : Nat} (hd : d < 10) : isDigitChar (digitChar d) = true := by
  interval_cases d <;> rfl

theorem mem_natDigitChars_isDigit {n : Nat} {c : Char} (hc : c ∈ natDigitChars n) :
    isDigitChar c = true := by
  simp only [natDigitChars, List.mem_reverse, List.mem_map] at hc
  obtain ⟨d, hd, rfl⟩ := hc
  exact isDigitChar_digitChar (Nat.digits_lt_base (by norm_num) hd)

theorem mem_natStr_isDigit {n : Nat} {c : Char} (hc : c ∈ natStr n) :
    isDigitChar c = true := by
  by_cases h : n = 0
  · subst h
    rw [natStr, if_pos rfl, List.mem_singleton] at hc
    subst hc; rfl
  · rw [natStr, if_neg h] at hc
    exact mem_natDigitChars_isDigit hc

theorem mem_padLeft19_isDigit {n : Nat} {c : Char}
    (hc : c ∈ padLeft19 (natDigitChars n)) : isDigitChar c = true := by
  rcases List.mem_append.mp hc with h | h
  · rw [List.eq_of_mem_replicate h]; rfl
  · exact mem_natDigitChars_isDigit h

theorem natStr_ne_nil (n : Nat) : natStr n ≠ [] := by
  by_cases h : n = 0
  · subst h; simp [natStr]
  · rw [natStr, if_neg h]
    simpa [natDigitChars] using Nat.digits_ne_nil_iff_ne_zero.mpr h

theorem takeDigits_all_append (l r : List Char)
    (hl : ∀ c ∈ l, isDigitChar c = true) :
    takeDigits (l ++ r) = (l ++ (takeDigits r).1, (takeDigits r).2) := by
  induction l with
  | nil => simp [takeDigits]
  | cons c t ih =>
      have hc := hl c (List.mem_cons_self c t)
      have ht : ∀ c ∈ t, isDigitChar c = true := fun x hx => hl x (List.mem_cons_of_mem c hx)
      simp only [List.cons_append, takeDigits, hc, if_true, List.append_eq, ih ht]

theorem takeDigits_all (l : List Char) (hl : ∀ c ∈ l, isDigitChar c = true) :
    takeDigits l = (l, []) := by
  have := takeDigits_all_append l [] hl
  simpa [takeDigits] using this

theorem takeDigits_dot (r : List Char) : takeDigits ('.' :: r) = ([], '.' :: r) := by
  simp [takeDigits, isDigitChar]

theorem natOfDigits_natDigitChars (n : Nat) : natOfDigits (natDigitChars n) = n := by
  rw [natOfDigits, natDigitChars, List.foldl_reverse]
  have h1 : ∀ (L : List Nat), (∀ d ∈ L, d < 10) →
      (L.map digitChar).foldr (fun c a => 10 * a + digitVal c) 0 = Nat.ofDigits 10 L := by
    intro L
    induction L with
    | nil => intro _; rfl
    | cons d t ih =>
        intro hL
        have hd : d < 10 := hL d (List.mem_cons_self d t)
        have ht : ∀ x ∈ t, x < 10 := fun x hx => hL x (List.mem_cons_of_mem d hx)
        simp only [List.map_cons, List.foldr_cons, ih ht, digitVal_digitChar hd,
          Nat.ofDigits_cons]
        ring
  have h2 := h1 (Nat.digits 10 n) (fun d hd => Nat.digits_lt_base (by norm_num) hd)
  calc ((Nat.digits 10 n).map digitChar).foldr (fun x y => 10 * y + digitVal x) 0
      = Nat.ofDigits 10 (Nat.digits 10 n) := h2
    _ = n := Nat.ofDigits_digits 10 n

theorem natOfDigits_natStr (n : Nat) : natOfDigits (natStr n) = n := by
  by_cases h : n = 0
  · subst h; rfl
  · rw [natStr, if_neg h]; exact natOfDigits_natDigitChars n

theorem natOfDigits_padLeft19 (n : Nat) :
    natOfDigits (padLeft19 (natDigitChars n)) = n := by
  rw [padLeft19, natOfDigits, List.foldl_append]
  have hz : ∀ (k : Nat), (List.replicate k '0').foldl
      (fun a c => 10 * a + digitVal c) 0 = 0 := by
    intro k
    induction k with
    | zero => rfl
    | succ k ih => simpa [List.replicate_succ, digitVal] using ih
  rw [hz]
  exact natOfDigits_natDigitChars n

theorem length_padLeft19 {n : Nat} (hn : n < 10 ^ 19) :
    (padLeft19 (natDigitChars n)).length = 19 := by
  have hlen : (natDigitChars n).length ≤ 19 := by
    by_cases h : n = 0
    · subst h; simp [natDigitChars]
    · have := Nat.log_lt_of_lt_pow h hn
      simp only [natDigitChars, List.length_reverse, List.length_map]
      rw [Nat.digits_len 10 n (by norm_num) h]
      omega
  simp only [padLeft19, List.length_append, List.length_replicate]
  omega

theorem scanSign_digit (c : Char) (t : List Char) (hc : isDigitChar c = true) :
    scanSign (c :: t) = (false, c :: t) := by
  have h1 : c ≠ '-' := by rintro rfl; simp [isDigitChar] at hc
  have h2 : c ≠ '+' := by rintro rfl; simp [isDigitChar] at hc
  simp [scanSign, h1, h2]

/-- Round-trip: scanning the `%.19f` output of a non-negative rational
recovers exactly the rounded-to-19-fractional-digits value, with the whole
string consumed (so `big.ParseFloat` succeeds with no error). -/
theorem parseGoFloat_fmtDec (q : ℚ) (hq : 0 ≤ q) :
    parseGoFloat (fmtDec q) = .full (round19 q) := by
  set n : ℤ := round (q * 10 ^ 19) with hn
  have hn0 : 0 ≤ n := by
    rw [hn, round_eq]
    refine Int.floor_nonneg.mpr ?_
    positivity
  set I : Nat := n.natAbs / 10 ^ 19 with hI
  set F : Nat := n.natAbs % 10 ^ 19 with hF
  have hFlt : F < 10 ^ 19 := Nat.mod_lt _ (by norm_num)
  have hbody : fmtDec q =
      ⟨natStr I ++ '.' :: padLeft19 (natDigitChars F)⟩ := by
    rw [fmtDec]
    simp only [← hn, ← hI, ← hF, if_neg (not_lt.mpr hn0)]
  rw [hbody, parseGoFloat]
  have htl : (String.mk (natStr I ++ '.' :: padLeft19 (natDigitChars F))).toList
      = natStr I ++ '.' :: padLeft19 (natDigitChars F) := rfl
  rw [htl]
  obtain ⟨c, t, hct⟩ : ∃ c t, natStr I = c :: t := by
    rcases hs : natStr I with _ | ⟨c, t⟩
    · exact absurd hs (natStr_ne_nil I)
    · exact ⟨c, t, rfl⟩
  have hsign : scanSign (natStr I ++ '.' :: padLeft19 (natDigitChars F)) =
      (false, natStr I ++ '.' :: padLeft19 (natDigitChars F)) := by
    rw [hct, List.cons_append]
    have := scanSign_digit c (t ++ '.' :: padLeft19 (natDigitChars F))
      (mem_natStr_isDigit (hct ▸ List.mem_cons_self c t))
    simpa using this
  have hip : takeDigits (natStr I ++ '.' :: padLeft19 (natDigitChars F)) =
      (natStr I, '.' :: padLeft19 (natDigitChars F)) := by
    rw [takeDigits_all_append _ _ (fun c hc => mem_natStr_isDigit hc), takeDigits_dot]
    simp
  have hfp : scanFrac ('.' :: padLeft19 (natDigitChars F)) =
      (padLeft19 (natDigitChars F), []) := by
    simp [scanFrac, takeDigits_all _ (fun c hc => mem_padLeft19_isDigit hc)]
  rw [scanNumber, hsign, hip, hfp]
  have hne : ¬(natStr I = [] ∧ padLeft19 (natDigitChars F) = []) := by
    simp [natStr_ne_nil I]
  rw [if_neg hne]
  rw [natOfDigits_natStr, natOfDigits_padLeft19, length_padLeft19 hFlt]
  have hval : (I : ℚ) + (F : ℚ) / 10 ^ 19 = round19 q := by
    rw [round19, ← hn]
    have hm : (10 ^ 19 * I + F : ℕ) = n.natAbs := Nat.div_add_mod _ _
    have hcast : ((n.natAbs : ℚ)) = ((n : ℤ) : ℚ) := by
      rw [← Int.cast_natCast, Int.natAbs_of_nonneg hn0]
    rw [← hcast, ← hm]
    push_cast
    field_simp
    ring
  rw [hval]
  simp

/-- Half-ulp bound for the 19-digit formatter: the stored string denotes a
rational within `1 / (2 * 10 ^ 19)` of the exact value. -/
theorem abs_round19_sub (q : ℚ) : |round19 q - q| ≤ 1 / (2 * 10 ^ 19) := by
  have h := abs_sub_round (q * 10 ^ 19)
  have h10 : (0 : ℚ) < 10 ^ 19 := by positivity
  have hrw : round19 q - q =
      -((q * 10 ^ 19 - (round (q * 10 ^ 19) : ℤ)) / 10 ^ 19) := by
    rw [round19]; field_simp; ring
  rw [hrw, abs_neg, abs_div, abs_of_pos h10, div_le_iff₀ h10]
  calc |q * 10 ^ 19 - (round (q * 10 ^ 19) : ℤ)| ≤ 1 / 2 := h
    _ = 1 / (2 * 10 ^ 19) * 10 ^ 19 := by ring

/-!
The HTTP handlers (`api/handlers.go`).  The model takes the already
JSON-decoded request (body decoding is outside the modelled scope) and the
current store contents, and returns the HTTP outcome together with the
store contents afterwards.  The `sync.RWMutex` around each handler only
serialises requests; a single sequential invocation is modelled.

Failure injection: per the repository's flaky-storage test doubles
(`FlakyMemoryTransaction.Set` in the consistency tests), an injected
`Set` failure returns an error *before* delegating, so a failed write
buffers nothing.  The model threads one fault flag per transactional write,
in program order.
-/

/-- Go: `model.TransactionRequest`. -/
structure TransactionRequest where
  sourceAccountId : Key
  destinationAccountId : Key
  amount : String

/-- Go: `model.AccountRequest`. -/
structure AccountRequest where
  accountId : Key
  initialBalance : String

/-- The observable HTTP outcome of a handler: a status (with the
`http.Error` message for error statuses, underlying storage-error text
elided) or a panic escaping the handler (Go's `net/http` then drops the
connection without writing a response). -/
inductive HStatus
  | ok
  | badRequest (msg : String)
  | notFound (msg : String)
  | internalError (msg : String)
  | conflict
  | panicked
deriving DecidableEq

/-- A transactional `Set` with an injected fault, as the flaky test doubles
wrap it: a faulted call fails without buffering anything. -/
def txSetFlaky (tx : InMemoryStorageTransaction) (fault : Bool) (k : Key)
    (v : Value) : Option InMemoryStorageTransaction :=
  if fault then none else some (tx.Set k v)

/-- Go: `AccountHandlers.SubmitTransaction`, over the in-memory store, with
fault flags `f1`/`f2` for the source-leg and destination-leg `tx.Set`.
Mirrors the source order: parse amount (error checked before the sign,
so no nil dereference here), reject self-transfer, read both balances from
the store, parse both balances (their parse errors are *ignored* by the
source; a completely unparsable balance leaves a nil `*big.Float` which
panics at `Cmp`/`Add`), check funds, then buffer both writes in one
transaction and commit; every error return runs the deferred rollback. -/
def SubmitTransaction (st : Store) (req : TransactionRequest) (f1 f2 : Bool) :
    HStatus × Store :=
  match parseGoFloat req.amount with
  | .scanError => (.badRequest "Invalid transaction amount", st)
  | .trailing _ => (.badRequest "Invalid transaction amount", st)
  | .full a =>
    if a ≤ 0 then (.badRequest "Invalid transaction amount", st)
    else if req.sourceAccountId = req.destinationAccountId then
      (.badRequest "Source and destination accounts cannot be the same", st)
    else match st req.sourceAccountId with
    | none => (.notFound "Source account not found", st)
    | some sourceBalance =>
      match st req.destinationAccountId with
      | none => (.notFound "Destination account not found", st)
      | some destinationBalance =>
        match parseGoFloat sourceBalance with
        | .scanError => (.panicked, st)
        | .trailing S | .full S =>
          if S < a then (.badRequest "insufficient funds in source account", st)
          else match parseGoFloat destinationBalance with
          | .scanError => (.panicked, st)
          | .trailing D | .full D =>
            let newSourceBalance := S - a
            let newDestinationBalance := D + a
            let tx := Begin st
            match txSetFlaky tx f1 req.sourceAccountId (fmtDec newSourceBalance) with
            | none =>
                (.internalError "Failed to update source account balance",
                  tx.Rollback.data)
            | some tx1 =>
              match txSetFlaky tx1 f2 req.destinationAccountId
                  (fmtDec newDestinationBalance) with
              | none =>
                  (.internalError "Failed to update destination account balance",
                    tx1.Rollback.data)
              | some tx2 => (.ok, tx2.Commit)

/-- Go: `AccountHandlers.CreateAccount`, over the in-memory store, with a
fault flag for the transactional `Set`.  The source checks
`initialBalanceFloat.Cmp(big.NewFloat(0.0)) < 0 || err != nil`: the `Cmp`
call runs *before* the error test, so when `big.ParseFloat` scanned no
number at all it returned a nil `*big.Float` and `Cmp` dereferences nil —
the handler panics instead of answering 400 (`SubmitTransaction` checks
`err != nil` first and does not have this problem).  A partially-consumed
input reaches the `err != nil` disjunct and is rejected with 400. -/
def CreateAccount (st : Store) (req : AccountRequest) (f1 : Bool) :
    HStatus × Store :=
  match parseGoFloat req.initialBalance with
  | .scanError => (.panicked, st)
  | .trailing q =>
      if q < 0 then (.badRequest "Invalid Initial Balance", st)
      else (.badRequest "Invalid Initial Balance", st)
  | .full q =>
      if q < 0 then (.badRequest "Invalid Initial Balance", st)
      else
        let tx := Begin st
        match txSetFlaky tx f1 req.accountId (fmtDec q) with
        | none => (.conflict, tx.Rollback.data)
        | some tx1 => (.ok, tx1.Commit)

/-! Concrete parses used by the witnesses. -/

theorem parse_lit_zero : parseGoFloat "0" = .full 0 := by
  simp +decide [parseGoFloat, scanNumber, scanSign, scanFrac, takeDigits,
    natOfDigits, isDigitChar, digitVal]

theorem parse_lit_one : parseGoFloat "1" = .full 1 := by
  simp +decide [parseGoFloat, scanNumber, scanSign, scanFrac, takeDigits,
    natOfDigits, isDigitChar, digitVal]

theorem parse_lit_three : parseGoFloat "3" = .full 3 := by
  simp +decide [parseGoFloat, scanNumber, scanSign, scanFrac, takeDigits,
    natOfDigits, isDigitChar, digitVal]

theorem parse_lit_five : parseGoFloat "5" = .full 5 := by
  simp +decide [parseGoFloat, scanNumber, scanSign, scanFrac, takeDigits,
    natOfDigits, isDigitChar, digitVal]

/-! Theorems for the claims about the transfer engine. -/

/-- C1: when the source-leg buffered write succeeds (`f1 = false`) and the
destination-leg write then fails (`f2 = true`), the handler reports a
server error and the deferred rollback discards the buffer without
committing: the store afterwards is exactly the store before, so neither
leg is applied. -/
theorem dest_write_failure_rolls_back (st : Store) (req : TransactionRequest)
    (a S D : ℚ) (sb db : Value)
    (hamt : parseGoFloat req.amount = .full a) (hpos : 0 < a)
    (hne : req.sourceAccountId ≠ req.destinationAccountId)
    (hsb : st req.sourceAccountId = some sb)
    (hdb : st req.destinationAccountId = some db)
    (hS : parseGoFloat sb = .full S) (hD : parseGoFloat db = .full D)
    (hfunds : a ≤ S) :
    SubmitTransaction st req false true =
      (.internalError "Failed to update destination account balance", st) := by
  simp only [SubmitTransaction, hamt, hsb, hdb, hS, hD, txSetFlaky,
    if_neg (not_le.mpr hpos), if_neg hne, if_neg (not_lt.mpr hfunds),
    Bool.false_eq_true, if_false, if_true]
  rfl

/-- Witness for C1: a concrete transfer of 1 from account 1 (balance 3) to
account 2 (balance 5) whose destination write is injected to fail leaves
the store untouched. -/
theorem dest_write_failure_rolls_back_w :
    SubmitTransaction
        (fun k => if k = 1 then some "3" else if k = 2 then some "5" else none)
        ⟨1, 2, "1"⟩ false true =
      (.internalError "Failed to update destination account balance",
        fun k => if k = 1 then some "3" else if k = 2 then some "5" else none) :=
  dest_write_failure_rolls_back _ ⟨1, 2, "1"⟩ 1 3 5 "3" "5"
    parse_lit_one (by norm_num) (by decide) rfl rfl
    parse_lit_three parse_lit_five (by norm_num)

/-- C2: a committed transfer stores `fmtDec (S - a)` at the source and
`fmtDec (D + a)` at the destination, leaves every other key unchanged,
those strings parse back to the exact new balances rounded to 19 fractional
digits, and the rounded sum differs from the old sum by at most one
`10 ^ (-19)` ulp (the arithmetic's rounding tolerance), so the two-account
total — and hence the total over all accounts, the rest being untouched —
is conserved. -/
theorem committed_transfer_conserves_balances (st : Store)
    (req : TransactionRequest) (a S D : ℚ) (sb db : Value)
    (hamt : parseGoFloat req.amount = .full a) (hpos : 0 < a)
    (hne : req.sourceAccountId ≠ req.destinationAccountId)
    (hsb : st req.sourceAccountId = some sb)
    (hdb : st req.destinationAccountId = some db)
    (hS : parseGoFloat sb = .full S) (hD : parseGoFloat db = .full D)
    (hfunds : a ≤ S) (hD0 : 0 ≤ D) :
    (SubmitTransaction st req false false).1 = .ok ∧
    (SubmitTransaction st req false false).2 req.sourceAccountId =
      some (fmtDec (S - a)) ∧
    (SubmitTransaction st req false false).2 req.destinationAccountId =
      some (fmtDec (D + a)) ∧
    (∀ k, k ≠ req.sourceAccountId → k ≠ req.destinationAccountId →
      (SubmitTransaction st req false false).2 k = st k) ∧
    parseGoFloat (fmtDec (S - a)) = .full (round19 (S - a)) ∧
    parseGoFloat (fmtDec (D + a)) = .full (round19 (D + a)) ∧
    |round19 (S - a) + round19 (D + a) - (S + D)| ≤ 1 / 10 ^ 19 := by
  have hrun : SubmitTransaction st req false false =
      (.ok, InMemoryStorageTransaction.Commit
        ⟨st, [(req.sourceAccountId, some (fmtDec (S - a))),
              (req.destinationAccountId, some (fmtDec (D + a)))]⟩) := by
    simp only [SubmitTransaction, hamt, hsb, hdb, hS, hD, txSetFlaky,
      if_neg (not_le.mpr hpos), if_neg hne, if_neg (not_lt.mpr hfunds),
      Bool.false_eq_true, if_false]
    simp [Begin, InMemoryStorageTransaction.Set, mapSet, hne]
  have hnd : ([(req.sourceAccountId, some (fmtDec (S - a))),
      (req.destinationAccountId, some (fmtDec (D + a)))].map Prod.fst).Nodup := by
    simp [hne]
  refine ⟨by rw [hrun], ?_, ?_, ?_, ?_, ?_, ?_⟩
  · rw [hrun]
    exact commit_foldl_mem _ st _ _ hnd (by simp)
  · rw [hrun]
    exact commit_foldl_mem _ st _ _ hnd (by simp)
  · intro k hk1 hk2
    rw [hrun]
    exact commit_foldl_not_mem _ st k (by simp [hk1, hk2])
  · exact parseGoFloat_fmtDec _ (sub_nonneg.mpr hfunds)
  · exact parseGoFloat_fmtDec _ (add_nonneg hD0 hpos.le)
  · have h1 := abs_round19_sub (S - a)
    have h2 := abs_round19_sub (D + a)
    have hsplit : round19 (S - a) + round19 (D + a) - (S + D) =
        (round19 (S - a) - (S - a)) + (round19 (D + a) - (D + a)) := by ring
    rw [hsplit]
    calc |(round19 (S - a) - (S - a)) + (round19 (D + a) - (D + a))|
        ≤ |round19 (S - a) - (S - a)| + |round19 (D + a) - (D + a)| :=
          abs_add _ _
      _ ≤ 1 / (2 * 10 ^ 19) + 1 / (2 * 10 ^ 19) := add_le_add h1 h2
      _ = 1 / 10 ^ 19 := by ring

/-- Witness for C2: transferring 1 from account 1 (balance 3) to account 2
(balance 5) commits, stores the reformatted balances, and conserves the
sum within the tolerance. -/
theorem committed_transfer_conserves_balances_w :
    (SubmitTransaction
        (fun k => if k = 1 then some "3" else if k = 2 then some "5" else none)
        ⟨1, 2, "1"⟩ false false).1 = .ok ∧
    (SubmitTransaction
        (fun k => if k = 1 then some "3" else if k = 2 then some "5" else none)
        ⟨1, 2, "1"⟩ false false).2 1 = some (fmtDec (3 - 1)) ∧
    (SubmitTransaction
        (fun k => if k = 1 then some "3" else if k = 2 then some "5" else none)
        ⟨1, 2, "1"⟩ false false).2 2 = some (fmtDec (5 + 1)) ∧
    (∀ k, k ≠ 1 → k ≠ 2 →
      (SubmitTransaction
        (fun k => if k = 1 then some "3" else if k = 2 then some "5" else none)
        ⟨1, 2, "1"⟩ false false).2 k =
        (fun k => if k = 1 then some "3" else if k = 2 then some "5" else none) k) ∧
    parseGoFloat (fmtDec (3 - 1)) = .full (round19 (3 - 1)) ∧
    parseGoFloat (fmtDec (5 + 1)) = .full (round19 (5 + 1)) ∧
    |round19 (3 - 1) + round19 (5 + 1) - (3 + 5)| ≤ 1 / 10 ^ 19 :=
  committed_transfer_conserves_balances _ ⟨1, 2, "1"⟩ 1 3 5 "3" "5"
    parse_lit_one (by norm_num) (by decide) rfl rfl
    parse_lit_three parse_lit_five (by norm_num) (by norm_num)

/-- C3: when both accounts exist and the parsed source balance is strictly
below the parsed amount, the handler answers 400 with the
insufficient-funds message before beginning any transaction, so the store
— in particular both balances — is unchanged, whatever the write fault
flags would have done. -/
theorem insufficient_funds_rejected (st : Store) (req : TransactionRequest)
    (a S : ℚ) (sb db : Value) (f1 f2 : Bool)
    (hamt : parseGoFloat req.amount = .full a) (hpos : 0 < a)
    (hne : req.sourceAccountId ≠ req.destinationAccountId)
    (hsb : st req.sourceAccountId = some sb)
    (hdb : st req.destinationAccountId = some db)
    (hS : parseGoFloat sb = .full S) (hlt : S < a) :
    SubmitTransaction st req f1 f2 =
      (.badRequest "insufficient funds in source account", st) := by
  simp only [SubmitTransaction, hamt, hsb, hdb, hS,
    if_neg (not_le.mpr hpos), if_neg hne, if_pos hlt]

/-- Witness for C3: transferring 5 from account 1 (balance 3) is rejected
with the insufficient-funds message and the store is untouched. -/
theorem insufficient_funds_rejected_w :
    SubmitTransaction
        (fun k => if k = 1 then some "3" else if k = 2 then some "5" else none)
        ⟨1, 2, "5"⟩ false false =
      (.badRequest "insufficient funds in source account",
        fun k => if k = 1 then some "3" else if k = 2 then some "5" else none) :=
  insufficient_funds_rejected _ ⟨1, 2, "5"⟩ 5 3 "3" "5" false false
    parse_lit_five (by norm_num) (by decide) rfl rfl
    parse_lit_three (by norm_num)

/-- C4: a transfer whose amount parses to a non-positive value is rejected
with the invalid-amount message, and a self-transfer is rejected with some
400 validation message whatever the amount and whatever the account's
balance; in both cases the handler returns before any storage read or
write, so the store is unchanged. -/
theorem request_validation_rejected (st : Store) (req : TransactionRequest)
    (f1 f2 : Bool) :
    (∀ a, parseGoFloat req.amount = .full a → a ≤ 0 →
      SubmitTransaction st req f1 f2 =
        (.badRequest "Invalid transaction amount", st)) ∧
    (req.sourceAccountId = req.destinationAccountId →
      ∃ msg, SubmitTransaction st req f1 f2 = (.badRequest msg, st)) := by
  constructor
  · intro a ha hle
    simp only [SubmitTransaction, ha, if_pos hle]
  · intro h
    match hp : parseGoFloat req.amount with
    | .scanError =>
        exact ⟨"Invalid transaction amount", by simp only [SubmitTransaction, hp]⟩
    | .trailing q =>
        exact ⟨"Invalid transaction amount", by simp only [SubmitTransaction, hp]⟩
    | .full q =>
        by_cases hq : q ≤ 0
        · exact ⟨"Invalid transaction amount",
            by simp only [SubmitTransaction, hp, if_pos hq]⟩
        · exact ⟨"Source and destination accounts cannot be the same",
            by simp only [SubmitTransaction, hp, if_neg hq, if_pos h]⟩

/-- Witness for C4: amount "0" is rejected as invalid, and a self-transfer
between account 3 and itself is rejected with a validation message; the
(empty) store is untouched in both cases. -/
theorem request_validation_rejected_w :
    SubmitTransaction (fun _ => none) ⟨1, 2, "0"⟩ false false =
      (.badRequest "Invalid transaction amount", fun _ => none) ∧
    ∃ msg, SubmitTransaction (fun _ => none) ⟨3, 3, "1"⟩ false false =
      (.badRequest msg, fun _ => none) :=
  ⟨(request_validation_rejected (fun _ => none) ⟨1, 2, "0"⟩ false false).1
      0 parse_lit_zero le_rfl,
    (request_validation_rejected (fun _ => none) ⟨3, 3, "1"⟩ false false).2 rfl⟩

/-- C9 (divergence witness): a balance string with no scannable numeric
prefix makes `big.ParseFloat` return a nil `*big.Float`; the handler's
`initialBalanceFloat.Cmp(...) < 0 || err != nil` dereferences it before
looking at `err`, so `CreateAccount` panics instead of answering 400 — no
store state is mutated, but no 400 response is produced either. -/
theorem create_account_unparsable_balance_panics :
    CreateAccount (fun _ => none) ⟨1, "abc"⟩ false = (.panicked, fun _ => none) :=
  rfl

end BankKV
